import Mathlib

/-!
# Verification of MeteoSwiss/opendata-nwp-demos utility functions

Shallow embedding of the two utility functions of the repository:

* `load_ncl_rgb_colors` (src/developer_notebooks/plot_utils/load_colormaps.py):
  parses a `.rgb` colormap text file into a list of normalized color triplets.
* `get_valid_data_frame` (src/plot_utils/plot_valid_data_frame.py):
  computes the convex hull of the (lon, lat) points at which a 2D slice of a
  4D data array is non-missing (non-NaN).

Modelling conventions:
* The filesystem is a function `String → Option (List String)` mapping a path
  to the list of lines of the file stored there (`none` if the path does not
  exist); `os.path.join(base_path, name + ".rgb")` is modelled as
  `base_path ++ "/" ++ name ++ ".rgb"`.
* Python string operations (`strip`, `split`, `startswith`, `in`, `int`) are
  implemented by structural recursion on the line's character list, following
  Python's semantics (ASCII whitespace; `int` accepting an optional sign and
  decimal digits with underscore digit grouping; the exotic inputs `int` also
  accepts, such as non-ASCII digits, cannot occur in whitespace-split tokens
  of the modelled character set and are not modelled).
* Python exceptions raised by the loader become an `Except` error value:
  `FileNotFoundError` from the explicit `raise`, `ValueError` from `int()`
  failing on a non-integer token (propagated unhandled).
* Python floats produced by `r / 255` are modelled as rationals `ℚ`; NaN cells
  of the data array are modelled as `none : Option ℚ` (a present value `q` is
  `some q`), so `np.isnan` is `Option.isNone`.
-/

/-- Errors the loader can raise: the explicit `FileNotFoundError` of line 7 of
load_colormaps.py, and the `ValueError` that `int()` raises on a token that is
not an integer literal. -/
inductive LoadErr where
  | fileNotFound (path : String) : LoadErr
  | valueError : LoadErr
deriving DecidableEq, Repr

instance {ε α : Type} [DecidableEq ε] [DecidableEq α] : DecidableEq (Except ε α) := fun a b =>
  match a, b with
  | .ok x, .ok y => if h : x = y then .isTrue (by rw [h]) else .isFalse (by simp [h])
  | .error x, .error y => if h : x = y then .isTrue (by rw [h]) else .isFalse (by simp [h])
  | .ok _, .error _ => .isFalse (by simp)
  | .error _, .ok _ => .isFalse (by simp)

/-- The whitespace characters Python's `str.strip()` and `str.split()` treat
as separators (the ASCII ones; a text colormap file contains no others). -/
def isSpace (c : Char) : Bool :=
  c == ' ' || c == '\t' || c == '\n' || c == '\r' || c == '\x0b' || c == '\x0c'

/-- Python `line.strip()`: drop leading and trailing whitespace. -/
def pyStrip (l : List Char) : List Char :=
  ((l.dropWhile isSpace).reverse.dropWhile isSpace).reverse

/-- Whether `pat` is a leading segment of `l`. -/
def startsWithSeg : List Char → List Char → Bool
  | [], _ => true
  | _ :: _, [] => false
  | c :: cs, d :: ds => c == d && startsWithSeg cs ds

/-- Python `pat in l` for strings: `pat` occurs contiguously in `l`. -/
def containsSeg (l pat : List Char) : Bool :=
  match l with
  | [] => pat.isEmpty
  | _ :: rest => startsWithSeg pat l || containsSeg rest pat

/-- Python `line.split()`: the maximal runs of non-whitespace characters, in
order (accumulator holds the current run reversed). -/
def pyTokensAux : List Char → List Char → List (List Char)
  | [], acc => if acc.isEmpty then [] else [acc.reverse]
  | c :: rest, acc =>
    if isSpace c then
      if acc.isEmpty then pyTokensAux rest [] else acc.reverse :: pyTokensAux rest []
    else
      pyTokensAux rest (c :: acc)

/-- Python `line.split()` on a line. -/
def pyTokens (l : List Char) : List (List Char) :=
  pyTokensAux l []

/-- The value of a decimal digit character, if it is one. -/
def digitVal? (c : Char) : Option Nat :=
  if '0' ≤ c ∧ c ≤ '9' then some (c.toNat - '0'.toNat) else none

/-- Digits after the first one: decimal digits where a `_` must sit between
two digits (Python's digit grouping). -/
def pyDigitsAux : List Char → Nat → Option Nat
  | [], acc => some acc
  | '_' :: c :: rest, acc =>
    match digitVal? c with
    | some d => pyDigitsAux rest (10 * acc + d)
    | none => none
  | ['_'], _ => none
  | c :: rest, acc =>
    match digitVal? c with
    | some d => pyDigitsAux rest (10 * acc + d)
    | none => none

/-- A nonempty digit sequence (with grouping) starting with a digit. -/
def pyNat? : List Char → Option Nat
  | [] => none
  | c :: rest =>
    match digitVal? c with
    | some d => pyDigitsAux rest d
    | none => none

/-- Python `int(token)` on a whitespace-free token: optional sign, then
decimal digits with underscore grouping; `none` models the `ValueError`. -/
def pyInt? : List Char → Option Int
  | '+' :: rest => (pyNat? rest).map fun n => (n : Int)
  | '-' :: rest => (pyNat? rest).map fun n => -(n : Int)
  | l => (pyNat? l).map fun n => (n : Int)

/-- The skip test of line 13 of load_colormaps.py on the stripped line:
`not line or line.startswith("#") or "ncolors" in line`. -/
def skipLine (l : List Char) : Bool :=
  l.isEmpty || startsWithSeg "#".toList l || containsSeg l "ncolors".toList

/-- Lines 12-18 of load_colormaps.py for one line of the file: strip, test the
skip condition, split, and when there are exactly 3 tokens parse each with
`int` (a failing parse raises `ValueError`).  Returns the parsed integer
triplet; the division by 255 is applied at the accumulation step. -/
def processLine (line : String) : Except LoadErr (Option (Int × Int × Int)) :=
  let l := pyStrip line.data
  if skipLine l then .ok none
  else
    match pyTokens l with
    | [a, b, c] =>
      match pyInt? a, pyInt? b, pyInt? c with
      | some r, some g, some bl => .ok (some (r, g, bl))
      | _, _, _ => .error .valueError
    | _ => .ok none

/-- Line 18 of load_colormaps.py: `(r / 255, g / 255, b / 255)`. -/
def normalizeRGB (t : Int × Int × Int) : ℚ × ℚ × ℚ :=
  ((t.1 : ℚ) / 255, (t.2.1 : ℚ) / 255, (t.2.2 : ℚ) / 255)

/-- The loop of lines 11-18 of load_colormaps.py over the lines of the file,
accumulating the normalized triplets in file order; the first `ValueError`
aborts the whole call with no partial result, as an uncaught Python exception
does. -/
def processLines : List String → Except LoadErr (List (ℚ × ℚ × ℚ))
  | [] => .ok []
  | line :: rest =>
    match processLine line with
    | .error e => .error e
    | .ok c =>
      match processLines rest with
      | .error e => .error e
      | .ok tl =>
        match c with
        | some t => .ok (normalizeRGB t :: tl)
        | none => .ok tl

/-- `load_ncl_rgb_colors` (load_colormaps.py lines 4-20): build the path
`base_path/name.rgb`, raise `FileNotFoundError` if it does not exist, else
parse the file's lines. -/
def load_ncl_rgb_colors (fs : String → Option (List String)) (name : String)
    (base_path : String := "plot_utils/colormaps") :
    Except LoadErr (List (ℚ × ℚ × ℚ)) :=
  let path := base_path ++ "/" ++ name ++ ".rgb"
  match fs path with
  | none => .error (.fileNotFound path)
  | some lines => processLines lines

/-- The integer triplet a line contributes, if any: `some (r, g, b)` exactly
when the line survives the skip test, splits into exactly 3 tokens and all
three tokens parse as integers.  Used to state which lines are the "valid
triplet lines" of a file. -/
def lineInts? (line : String) : Option (Int × Int × Int) :=
  match processLine line with
  | .ok o => o
  | .error _ => none


/-- The labelled 4D array of plot_valid_data_frame.py: `values` has dimensions
[eps, ref_time, y, x] (a cell is `none` when the stored float is NaN), with
`lat`/`lon` coordinate arrays aligned to the spatial dimensions (y, x). -/
structure DataArray (n1 n2 ny nx : ℕ) where
  values : Fin n1 → Fin n2 → Fin ny → Fin nx → Option ℚ
  lat : Fin ny → Fin nx → ℚ
  lon : Fin ny → Fin nx → ℚ

/-- Modelled from shapely: `MultiPoint(points).convex_hull` is represented by
the point list it was built from; its geometry is given by `hullSet` and
`hullVertices` below. -/
structure MultiPointHull where
  pts : List (ℚ × ℚ)
deriving DecidableEq, Repr

/-- The region covered by the returned hull: the convex hull of the points. -/
def hullSet (h : MultiPointHull) : Set (ℚ × ℚ) :=
  convexHull ℚ (setOf fun p => p ∈ h.pts)

/-- The vertices of the returned hull polygon: the extreme points of the
convex region (the minimal vertex set the geometry library reports). -/
def hullVertices (h : MultiPointHull) : Set (ℚ × ℚ) :=
  Set.extremePoints ℚ (hullSet h)

/-- numpy boolean-mask indexing `arr[mask]` on a 2D array: the positions where
the mask is true, flattened in row-major order. -/
def validPositions {ny nx : ℕ} (mask : Fin ny → Fin nx → Bool) :
    List (Fin ny × Fin nx) :=
  (List.finRange ny).flatMap fun y =>
    (List.finRange nx).filterMap fun x => if mask y x then some (y, x) else none

/-- `get_valid_data_frame` (plot_valid_data_frame.py lines 16-28): select the
2D slice at `level_idx`, mask the non-NaN cells, gather the `lat`/`lon` values
at the masked positions, return `None` when fewer than 3 valid points exist,
else the convex hull of the zipped (lon, lat) points. -/
def get_valid_data_frame {n1 n2 ny nx : ℕ} (data_array : DataArray n1 n2 ny nx)
    (level_idx : Fin n1 × Fin n2) : Option MultiPointHull :=
  let data_2d := fun y x => data_array.values level_idx.1 level_idx.2 y x
  let valid_mask := fun y x => !(data_2d y x).isNone
  let pos := validPositions valid_mask
  let valid_lat := pos.map fun p => data_array.lat p.1 p.2
  let valid_lon := pos.map fun p => data_array.lon p.1 p.2
  if valid_lat.length < 3 then none
  else some ⟨valid_lon.zip valid_lat⟩

/-- The state-passing form of `get_valid_data_frame`: the function body
contains no assignment to `data_array` or `level_idx` (slicing, `np.isnan`,
`~`, mask indexing, `zip`, `MultiPoint` and `convex_hull` all build new
values), so the explicit-state translation returns the inputs unchanged
alongside the result. -/
def get_valid_data_frame_run {n1 n2 ny nx : ℕ} (data_array : DataArray n1 n2 ny nx)
    (level_idx : Fin n1 × Fin n2) :
    Option MultiPointHull × DataArray n1 n2 ny nx × (Fin n1 × Fin n2) :=
  (get_valid_data_frame data_array level_idx, data_array, level_idx)

/-- The number of non-missing cells of the selected 2D slice. -/
def validCount {n1 n2 ny nx : ℕ} (d : DataArray n1 n2 ny nx)
    (li : Fin n1 × Fin n2) : ℕ :=
  (Finset.univ.filter fun p : Fin ny × Fin nx =>
    (d.values li.1 li.2 p.1 p.2).isSome = true).card

/-- The set of (lon, lat) pairs at the non-missing positions of the selected
slice: the "valid point set" of the specification. -/
def validPointSet {n1 n2 ny nx : ℕ} (d : DataArray n1 n2 ny nx)
    (li : Fin n1 × Fin n2) : Set (ℚ × ℚ) :=
  setOf fun q => ∃ y x, (d.values li.1 li.2 y x).isSome = true ∧
    q = (d.lon y x, d.lat y x)

/-- All three channels of a parsed triplet (when there is one) lie in the
[0, 255] range: the well-formedness condition on a colormap file's lines. -/
def inRange255 : Option (Int × Int × Int) → Bool
  | none => true
  | some t =>
    decide (0 ≤ t.1) && decide (t.1 ≤ 255) && decide (0 ≤ t.2.1) &&
    decide (t.2.1 ≤ 255) && decide (0 ≤ t.2.2) && decide (t.2.2 ≤ 255)

/-- Fixture: a well-formed colormap file `wmap.rgb` with comment, header and
two triplet lines. -/
def fsC1 : String → Option (List String) := fun p =>
  if p = "plot_utils/colormaps/wmap.rgb" then
    some ["# c", "255 0 128", "ncolors 2", "10 20 30"]
  else none

/-- Fixture: a file holding only a comment line and an `ncolors` header. -/
def fsC5 : String → Option (List String) := fun p =>
  if p = "cm/only.rgb" then some ["# comment", "ncolors 3"] else none

/-- Fixture: a file whose triplet lines hold integers outside [0, 255]. -/
def fsC9 : String → Option (List String) := fun p =>
  if p = "plot_utils/colormaps/hot.rgb" then some ["300 0 0", "-1 0 0"] else none

/-- Fixture: an empty filesystem (every path is missing). -/
def fsNone : String → Option (List String) := fun _ => none

/-- Fixture: a 1x1x1x2 array, entirely valid: only 2 spatial points. -/
def dSmall : DataArray 1 1 1 2 :=
  ⟨fun _ _ _ _ => some 1, fun _ _ => 0, fun _ _ => 0⟩

/-- Fixture: a 1x1x1x3 array, entirely valid, whose 3 points are collinear
(and share the same latitude). -/
def dColl : DataArray 1 1 1 3 :=
  ⟨fun _ _ _ _ => some 1, fun _ _ => 0, fun _ x => (x.val : ℚ)⟩

/-- Fixture: a 1x1x2x2 array, entirely valid, over the rectangular grid with
longitudes 0, 1 and latitudes 0, 1. -/
def dGrid : DataArray 1 1 2 2 :=
  ⟨fun _ _ _ _ => some 1, fun y _ => (y.val : ℚ), fun _ x => (x.val : ℚ)⟩

/-- Fixture: a 1x1x1x3 array, entirely valid, whose 3 points are all the
same point (0, 0). -/
def dConst : DataArray 1 1 1 3 :=
  ⟨fun _ _ _ _ => some 1, fun _ _ => 0, fun _ _ => 0⟩

/-- `processLine` never raises `FileNotFoundError`: the only error the line
loop can produce is `ValueError`. -/
theorem processLine_ne_fileNotFound (line : String) (p : String) :
    processLine line ≠ .error (.fileNotFound p) := by
  simp only [processLine]
  split
  · simp
  · split
    · split <;> simp
    · simp

/-- The line loop never raises `FileNotFoundError`. -/
theorem processLines_ne_fileNotFound (ls : List String) (p : String) :
    processLines ls ≠ .error (.fileNotFound p) := by
  induction ls with
  | nil => simp [processLines]
  | cons l rest ih =>
    unfold processLines
    cases hl : processLine l with
    | error e =>
      intro h
      simp only [Except.error.injEq] at h
      exact processLine_ne_fileNotFound l p (h ▸ hl)
    | ok c =>
      cases h2 : processLines rest with
      | error e =>
        intro h
        simp only [Except.error.injEq] at h
        exact ih (h ▸ h2)
      | ok tl => cases c <;> simp

/-- When a line does not raise `ValueError`, its processing succeeds and
returns exactly the triplet `lineInts?` describes. -/
theorem processLine_ok (line : String)
    (hok : processLine line ≠ .error .valueError) :
    processLine line = .ok (lineInts? line) := by
  cases h : processLine line with
  | ok o => simp [lineInts?, h]
  | error e =>
    cases e with
    | fileNotFound p => exact absurd h (processLine_ne_fileNotFound line p)
    | valueError => exact absurd h hok

/-- When no line raises `ValueError`, the line loop returns exactly the
normalized triplets of the valid triplet lines, in file order. -/
theorem processLines_eq_of_ok (ls : List String)
    (hok : ∀ line ∈ ls, processLine line ≠ .error .valueError) :
    processLines ls = .ok ((ls.filterMap lineInts?).map normalizeRGB) := by
  induction ls with
  | nil => rfl
  | cons l rest ih =>
    unfold processLines
    rw [processLine_ok l (hok l (by simp)), ih (fun x hx => hok x (by simp [hx]))]
    cases h : lineInts? l <;> simp [List.filterMap_cons, h]

/-- A channel value in [0, 255] normalizes into [0, 1]. -/
theorem div255_bounds {z : Int} (h0 : 0 ≤ z) (h255 : z ≤ 255) :
    0 ≤ (z : ℚ) / 255 ∧ (z : ℚ) / 255 ≤ 1 := by
  constructor
  · apply div_nonneg _ (by norm_num)
    exact_mod_cast h0
  · rw [div_le_one (by norm_num)]
    exact_mod_cast h255

/-- On a file whose lines are present, loading reduces to the line loop. -/
theorem load_ncl_rgb_colors_eq_processLines (fs : String → Option (List String))
    (name base_path : String) (lines : List String)
    (hfs : fs (base_path ++ "/" ++ name ++ ".rgb") = some lines) :
    load_ncl_rgb_colors fs name base_path = processLines lines := by
  simp only [load_ncl_rgb_colors]
  rw [hfs]

/-- C1: on a well-formed colormap file (no line raises `ValueError` and every
parsed triplet's channels lie in [0, 255]), `load_ncl_rgb_colors` returns
exactly the triplet lines' values `(r/255, g/255, b/255)` in file order (so N
triplet lines give N colors, and no triplet lines give the empty list), every
component lies in [0, 1], and the line "255 0 128" contributes
(1, 0, 128/255). -/
theorem load_colors_wellformed_correct (fs : String → Option (List String))
    (name base_path : String) (lines : List String)
    (hfs : fs (base_path ++ "/" ++ name ++ ".rgb") = some lines)
    (hok : ∀ line ∈ lines, processLine line ≠ .error .valueError)
    (hrange : ∀ line ∈ lines, inRange255 (lineInts? line) = true) :
    load_ncl_rgb_colors fs name base_path
      = .ok ((lines.filterMap lineInts?).map normalizeRGB)
    ∧ (∀ c ∈ (lines.filterMap lineInts?).map normalizeRGB,
        0 ≤ c.1 ∧ c.1 ≤ 1 ∧ 0 ≤ c.2.1 ∧ c.2.1 ≤ 1 ∧ 0 ≤ c.2.2 ∧ c.2.2 ≤ 1)
    ∧ lineInts? "255 0 128" = some (255, 0, 128)
    ∧ normalizeRGB (255, 0, 128) = (1, 0, 128 / 255) := by
  refine ⟨?_, ?_, by decide, by norm_num [normalizeRGB]⟩
  · rw [load_ncl_rgb_colors_eq_processLines fs name base_path lines hfs]
    exact processLines_eq_of_ok lines hok
  · intro c hc
    rw [List.mem_map] at hc
    obtain ⟨t, ht, rfl⟩ := hc
    rw [List.mem_filterMap] at ht
    obtain ⟨line, hline, hsome⟩ := ht
    have hr := hrange line hline
    rw [hsome] at hr
    unfold inRange255 at hr
    simp only [Bool.and_eq_true, decide_eq_true_eq] at hr
    obtain ⟨⟨⟨⟨⟨h1, h2⟩, h3⟩, h4⟩, h5⟩, h6⟩ := hr
    obtain ⟨a1, a2⟩ := div255_bounds h1 h2
    obtain ⟨b1, b2⟩ := div255_bounds h3 h4
    obtain ⟨c1, c2⟩ := div255_bounds h5 h6
    exact ⟨a1, a2, b1, b2, c1, c2⟩

/-- Witness for C1 on the concrete file `wmap.rgb`. -/
theorem load_colors_wellformed_correct_witness :
    load_ncl_rgb_colors fsC1 "wmap" "plot_utils/colormaps"
      = .ok (((["# c", "255 0 128", "ncolors 2", "10 20 30"] : List String).filterMap
          lineInts?).map normalizeRGB)
    ∧ (∀ c ∈ ((["# c", "255 0 128", "ncolors 2", "10 20 30"] : List String).filterMap
          lineInts?).map normalizeRGB,
        0 ≤ c.1 ∧ c.1 ≤ 1 ∧ 0 ≤ c.2.1 ∧ c.2.1 ≤ 1 ∧ 0 ≤ c.2.2 ∧ c.2.2 ≤ 1)
    ∧ lineInts? "255 0 128" = some (255, 0, 128)
    ∧ normalizeRGB (255, 0, 128) = (1, 0, 128 / 255) :=
  load_colors_wellformed_correct fsC1 "wmap" "plot_utils/colormaps"
    ["# c", "255 0 128", "ncolors 2", "10 20 30"] (by decide) (by decide) (by decide)

/-- C4: the loader fails with `FileNotFoundError` exactly when the constructed
path `base_path/name.rgb` is absent from the filesystem, the reported path is
always that constructed path, and (the error carrying no colors) no partial
result is produced. -/
theorem load_colors_not_found_iff (fs : String → Option (List String))
    (name base_path : String) :
    (load_ncl_rgb_colors fs name base_path
        = .error (.fileNotFound (base_path ++ "/" ++ name ++ ".rgb"))
      ↔ fs (base_path ++ "/" ++ name ++ ".rgb") = none)
    ∧ ∀ p, load_ncl_rgb_colors fs name base_path = .error (.fileNotFound p) →
        p = base_path ++ "/" ++ name ++ ".rgb" := by
  cases hfs : fs (base_path ++ "/" ++ name ++ ".rgb") with
  | none =>
    have hload : load_ncl_rgb_colors fs name base_path
        = .error (.fileNotFound (base_path ++ "/" ++ name ++ ".rgb")) := by
      simp only [load_ncl_rgb_colors]
      rw [hfs]
    refine ⟨⟨fun _ => rfl, fun _ => hload⟩, fun p hp => ?_⟩
    rw [hload] at hp
    simp only [Except.error.injEq, LoadErr.fileNotFound.injEq] at hp
    exact hp.symm
  | some ls =>
    have hload := load_ncl_rgb_colors_eq_processLines fs name base_path ls hfs
    constructor
    · constructor
      · intro h
        exact absurd (hload ▸ h) (processLines_ne_fileNotFound ls _)
      · intro h
        exact absurd h (by simp)
    · intro p hp
      exact absurd (hload ▸ hp) (processLines_ne_fileNotFound ls p)

/-- Witness for C4 on the empty filesystem. -/
theorem load_colors_not_found_iff_witness :
    load_ncl_rgb_colors fsNone "x" "y"
      = .error (.fileNotFound ("y" ++ "/" ++ "x" ++ ".rgb")) :=
  (load_colors_not_found_iff fsNone "x" "y").1.mpr rfl

/-- C5: a line contributes no triplet exactly when its stripped form is
empty, starts with `#`, contains `ncolors`, or does not split into exactly 3
tokens (given that the line does not raise `ValueError`); and the file
holding only a comment and an `ncolors` header loads to the empty list. -/
theorem load_colors_skip_iff :
    (∀ line : String, processLine line ≠ .error .valueError →
      (lineInts? line = none ↔
        (skipLine (pyStrip line.data) = true
          ∨ (pyTokens (pyStrip line.data)).length ≠ 3)))
    ∧ load_ncl_rgb_colors fsC5 "only" "cm" = .ok [] := by
  constructor
  · intro line hok
    have hpl : processLine line = .ok (lineInts? line) := processLine_ok line hok
    cases hskip : skipLine (pyStrip line.data) with
    | true =>
      have hnone : processLine line = .ok none := by simp [processLine, hskip]
      rw [hnone] at hpl
      simp only [Except.ok.injEq] at hpl
      simp [← hpl, hskip]
    | false =>
      rcases htok : pyTokens (pyStrip line.data) with _ | ⟨a, _ | ⟨b, _ | ⟨c, _ | ⟨d, rest⟩⟩⟩⟩
      · have hnone : processLine line = .ok none := by simp [processLine, hskip, htok]
        rw [hnone] at hpl
        simp only [Except.ok.injEq] at hpl
        simp [← hpl, htok]
      · have hnone : processLine line = .ok none := by simp [processLine, hskip, htok]
        rw [hnone] at hpl
        simp only [Except.ok.injEq] at hpl
        simp [← hpl, htok]
      · have hnone : processLine line = .ok none := by simp [processLine, hskip, htok]
        rw [hnone] at hpl
        simp only [Except.ok.injEq] at hpl
        simp [← hpl, htok]
      · rcases ha : pyInt? a with _ | ra
        · exact absurd (by simp [processLine, hskip, htok, ha]) hok
        rcases hb : pyInt? b with _ | rb
        · exact absurd (by simp [processLine, hskip, htok, ha, hb]) hok
        rcases hc : pyInt? c with _ | rc
        · exact absurd (by simp [processLine, hskip, htok, ha, hb, hc]) hok
        have hsome : processLine line = .ok (some (ra, rb, rc)) := by
          simp [processLine, hskip, htok, ha, hb, hc]
        rw [hsome] at hpl
        simp only [Except.ok.injEq] at hpl
        simp [← hpl, hskip, htok]
      · have hnone : processLine line = .ok none := by simp [processLine, hskip, htok]
        rw [hnone] at hpl
        simp only [Except.ok.injEq] at hpl
        simp [← hpl, htok]
  · rw [load_ncl_rgb_colors_eq_processLines fsC5 "only" "cm"
      ["# comment", "ncolors 3"] (by decide)]
    rw [processLines_eq_of_ok _ (by decide)]
    rw [show (["# comment", "ncolors 3"] : List String).filterMap lineInts? = []
      from by decide]
    rfl

/-- Witness for C5 on a concrete comment line. -/
theorem load_colors_skip_iff_witness : lineInts? "# hello" = none :=
  (load_colors_skip_iff.1 "# hello" (by decide)).mpr (by decide)

/-- C9: the loader performs no range check: a file whose triplet lines hold
300 and -1 loads successfully, producing components outside [0, 1]. -/
theorem load_colors_no_range_check :
    load_ncl_rgb_colors fsC9 "hot"
      = .ok [((300 : ℚ) / 255, 0, 0), ((-1 : ℚ) / 255, 0, 0)]
    ∧ 1 < (300 : ℚ) / 255 ∧ (-1 : ℚ) / 255 < 0 := by
  refine ⟨?_, by norm_num, by norm_num⟩
  rw [load_ncl_rgb_colors_eq_processLines fsC9 "hot" "plot_utils/colormaps"
    ["300 0 0", "-1 0 0"] (by decide)]
  rw [processLines_eq_of_ok _ (by decide)]
  rw [show (["300 0 0", "-1 0 0"] : List String).filterMap lineInts?
    = [(300, 0, 0), (-1, 0, 0)] from by decide]
  norm_num [normalizeRGB]

/-- A position is gathered by the boolean mask exactly when the mask holds. -/
theorem mem_validPositions {ny nx : ℕ} (mask : Fin ny → Fin nx → Bool)
    (p : Fin ny × Fin nx) :
    p ∈ validPositions mask ↔ mask p.1 p.2 = true := by
  unfold validPositions
  rw [List.mem_flatMap]
  constructor
  · rintro ⟨y, _, hmem⟩
    rw [List.mem_filterMap] at hmem
    obtain ⟨x, _, hfx⟩ := hmem
    by_cases h : mask y x = true
    · rw [if_pos h] at hfx
      obtain rfl := Option.some_inj.mp hfx
      exact h
    · rw [if_neg h] at hfx
      exact absurd hfx (by simp)
  · intro h
    refine ⟨p.1, List.mem_finRange _, ?_⟩
    rw [List.mem_filterMap]
    exact ⟨p.2, List.mem_finRange _, by simp [h]⟩

/-- The gathered position list has no duplicates. -/
theorem nodup_validPositions {ny nx : ℕ} (mask : Fin ny → Fin nx → Bool) :
    (validPositions mask).Nodup := by
  unfold validPositions
  rw [List.nodup_flatMap]
  constructor
  · intro y _
    apply List.Nodup.filterMap _ (List.nodup_finRange nx)
    intro a a' b hb hb'
    rw [Option.mem_def] at hb hb'
    by_cases h : mask y a = true
    · rw [if_pos h] at hb
      by_cases h' : mask y a' = true
      · rw [if_pos h'] at hb'
        obtain rfl := Option.some_inj.mp hb
        obtain h2 := Option.some_inj.mp hb'
        exact (congrArg Prod.snd h2).symm
      · rw [if_neg h'] at hb'
        exact absurd hb' (by simp)
    · rw [if_neg h] at hb
      exact absurd hb (by simp)
  · refine (List.nodup_finRange ny).imp ?_
    intro y y' hne q hq hq'
    rw [List.mem_filterMap] at hq hq'
    obtain ⟨x, _, hfx⟩ := hq
    obtain ⟨x', _, hfx'⟩ := hq'
    by_cases h : mask y x = true
    · rw [if_pos h] at hfx
      by_cases h' : mask y' x' = true
      · rw [if_pos h'] at hfx'
        obtain rfl := Option.some_inj.mp hfx
        obtain h2 := Option.some_inj.mp hfx'
        exact hne (congrArg Prod.fst h2).symm
      · rw [if_neg h'] at hfx'
        exact absurd hfx' (by simp)
    · rw [if_neg h] at hfx
      exact absurd hfx (by simp)

/-- The number of gathered positions is the number of mask-true cells. -/
theorem length_validPositions {ny nx : ℕ} (mask : Fin ny → Fin nx → Bool) :
    (validPositions mask).length
      = (Finset.univ.filter fun p : Fin ny × Fin nx => mask p.1 p.2 = true).card := by
  rw [← List.toFinset_card_of_nodup (nodup_validPositions mask)]
  congr 1
  ext p
  simp [List.mem_toFinset, mem_validPositions, Finset.mem_filter]

/-- The gathered-position count of the non-NaN mask is `validCount`. -/
theorem length_validPositions_eq_validCount {n1 n2 ny nx : ℕ}
    (d : DataArray n1 n2 ny nx) (li : Fin n1 × Fin n2) :
    (validPositions fun y x => (d.values li.1 li.2 y x).isSome).length
      = validCount d li := by
  rw [length_validPositions]
  rfl

/-- Canonical form of `get_valid_data_frame`: the zipped (lon, lat) list is
the gathered positions mapped through the coordinate arrays. -/
theorem get_valid_data_frame_eq {n1 n2 ny nx : ℕ} (d : DataArray n1 n2 ny nx)
    (li : Fin n1 × Fin n2) :
    get_valid_data_frame d li =
      if (validPositions fun y x => (d.values li.1 li.2 y x).isSome).length < 3 then
        none
      else
        some ⟨(validPositions fun y x => (d.values li.1 li.2 y x).isSome).map
          fun p => (d.lon p.1 p.2, d.lat p.1 p.2)⟩ := by
  have hmask : (fun y x => !(d.values li.1 li.2 y x).isNone)
      = fun y x => (d.values li.1 li.2 y x).isSome := by
    funext y x
    cases d.values li.1 li.2 y x <;> rfl
  simp only [get_valid_data_frame, hmask, List.length_map, List.zip_map']

/-- With at least 3 valid points, the hull of the gathered points is
returned. -/
theorem get_valid_data_frame_some {n1 n2 ny nx : ℕ} (d : DataArray n1 n2 ny nx)
    (li : Fin n1 × Fin n2) (h3 : 3 ≤ validCount d li) :
    get_valid_data_frame d li
      = some ⟨(validPositions fun y x => (d.values li.1 li.2 y x).isSome).map
          fun p => (d.lon p.1 p.2, d.lat p.1 p.2)⟩ := by
  rw [get_valid_data_frame_eq, length_validPositions_eq_validCount, if_neg (by omega)]

/-- The gathered (lon, lat) list holds exactly the valid point set. -/
theorem mem_gathered_iff {n1 n2 ny nx : ℕ} (d : DataArray n1 n2 ny nx)
    (li : Fin n1 × Fin n2) (q : ℚ × ℚ) :
    q ∈ (validPositions fun y x => (d.values li.1 li.2 y x).isSome).map
        (fun p => (d.lon p.1 p.2, d.lat p.1 p.2))
      ↔ q ∈ validPointSet d li := by
  rw [List.mem_map]
  unfold validPointSet
  rw [Set.mem_setOf_eq]
  constructor
  · rintro ⟨p, hp, rfl⟩
    rw [mem_validPositions] at hp
    exact ⟨p.1, p.2, hp, rfl⟩
  · rintro ⟨y, x, hval, rfl⟩
    exact ⟨(y, x), (mem_validPositions _ _).mpr hval, rfl⟩

/-- C2: `get_valid_data_frame` selects the slice at `level_idx`, collects the
(lon, lat) pairs at exactly the non-NaN positions, and (with at least 3 such
points) returns the convex hull of that point set. -/
theorem get_valid_data_frame_hull_correct {n1 n2 ny nx : ℕ}
    (d : DataArray n1 n2 ny nx) (li : Fin n1 × Fin n2)
    (h3 : 3 ≤ validCount d li) :
    ∃ hull, get_valid_data_frame d li = some hull
      ∧ (setOf fun q => q ∈ hull.pts) = validPointSet d li
      ∧ hullSet hull = convexHull ℚ (validPointSet d li) := by
  refine ⟨_, get_valid_data_frame_some d li h3, ?_, ?_⟩
  · ext q
    rw [Set.mem_setOf_eq]
    exact mem_gathered_iff d li q
  · have hset : (setOf fun q => q ∈
        (validPositions fun y x => (d.values li.1 li.2 y x).isSome).map
          fun p => (d.lon p.1 p.2, d.lat p.1 p.2)) = validPointSet d li := by
      ext q
      rw [Set.mem_setOf_eq]
      exact mem_gathered_iff d li q
    exact congrArg (convexHull ℚ) hset

/-- Witness for C2 on the fully valid 2x2 grid. -/
theorem get_valid_data_frame_hull_correct_witness :
    ∃ hull, get_valid_data_frame dGrid (0, 0) = some hull
      ∧ (setOf fun q => q ∈ hull.pts) = validPointSet dGrid (0, 0)
      ∧ hullSet hull = convexHull ℚ (validPointSet dGrid (0, 0)) :=
  get_valid_data_frame_hull_correct dGrid (0, 0) (by decide)

/-- C3: with fewer than 3 non-missing points in the selected slice, the
function returns `None` (no error). -/
theorem get_valid_data_frame_none_of_lt3 {n1 n2 ny nx : ℕ}
    (d : DataArray n1 n2 ny nx) (li : Fin n1 × Fin n2)
    (h : validCount d li < 3) :
    get_valid_data_frame d li = none := by
  rw [get_valid_data_frame_eq, length_validPositions_eq_validCount, if_pos h]

/-- Witness for C3 on a fully valid slice holding only 2 points. -/
theorem get_valid_data_frame_none_of_lt3_witness :
    get_valid_data_frame dSmall (0, 0) = none :=
  get_valid_data_frame_none_of_lt3 dSmall (0, 0) (by decide)

/-- C7: the function is deterministic: equal unmodified inputs give equal
results, hence geometrically identical polygons. -/
theorem get_valid_data_frame_deterministic {n1 n2 ny nx : ℕ}
    (d : DataArray n1 n2 ny nx) (li : Fin n1 × Fin n2) :
    get_valid_data_frame d li = get_valid_data_frame d li
    ∧ ∀ h₁ h₂, get_valid_data_frame d li = some h₁ →
        get_valid_data_frame d li = some h₂ →
        hullSet h₁ = hullSet h₂ ∧ hullVertices h₁ = hullVertices h₂ := by
  refine ⟨rfl, fun h₁ h₂ e₁ e₂ => ?_⟩
  rw [e₁] at e₂
  obtain rfl : h₁ = h₂ := Option.some_inj.mp e₂
  exact ⟨rfl, rfl⟩

/-- Witness for C7 on a concrete 3-point slice. -/
theorem get_valid_data_frame_deterministic_witness :
    hullSet ⟨[((0 : ℚ), (0 : ℚ)), (0, 0), (0, 0)]⟩
        = hullSet ⟨[((0 : ℚ), (0 : ℚ)), (0, 0), (0, 0)]⟩
    ∧ hullVertices ⟨[((0 : ℚ), (0 : ℚ)), (0, 0), (0, 0)]⟩
        = hullVertices ⟨[((0 : ℚ), (0 : ℚ)), (0, 0), (0, 0)]⟩ :=
  (get_valid_data_frame_deterministic dConst (0, 0)).2
    ⟨[(0, 0), (0, 0), (0, 0)]⟩ ⟨[(0, 0), (0, 0), (0, 0)]⟩ rfl rfl

/-- C8: no mutation of inputs: the explicit-state form returns the data
array and index pair unchanged, alongside the usual result. -/
theorem get_valid_data_frame_no_mutation {n1 n2 ny nx : ℕ}
    (d : DataArray n1 n2 ny nx) (li : Fin n1 × Fin n2) :
    (get_valid_data_frame_run d li).2 = (d, li)
    ∧ (get_valid_data_frame_run d li).1 = get_valid_data_frame d li :=
  ⟨rfl, rfl⟩

/-- C10: the result is `None` exactly when fewer than 3 valid points exist;
with 3 or more (collinear or duplicate points included) it is non-absent. -/
theorem get_valid_data_frame_none_iff {n1 n2 ny nx : ℕ}
    (d : DataArray n1 n2 ny nx) (li : Fin n1 × Fin n2) :
    get_valid_data_frame d li = none ↔ validCount d li < 3 := by
  rw [get_valid_data_frame_eq, length_validPositions_eq_validCount]
  split
  · next h => simp [h]
  · next h => simp [h]

/-- Witness for C10: 3 collinear valid points still give a non-absent
result. -/
theorem get_valid_data_frame_none_iff_witness :
    3 ≤ validCount dColl (0, 0)
    ∧ ¬ get_valid_data_frame dColl (0, 0) = none :=
  ⟨by decide, fun h =>
    absurd ((get_valid_data_frame_none_iff dColl (0, 0)).mp h) (by decide)⟩

/-- A point strictly between two others on a horizontal line lies in their
open segment. -/
theorem mem_openSegment_horiz {a b c x : ℚ} (h1 : a < x) (h2 : x < b) :
    ((x, c) : ℚ × ℚ) ∈ openSegment ℚ ((a, c) : ℚ × ℚ) (b, c) := by
  have hba : b - a ≠ 0 := ne_of_gt (by linarith)
  refine ⟨(b - x) / (b - a), (x - a) / (b - a),
    div_pos (by linarith) (by linarith), div_pos (by linarith) (by linarith),
    ?_, ?_⟩
  · field_simp
  · rw [Prod.smul_mk, Prod.smul_mk, Prod.mk_add_mk, Prod.mk.injEq]
    constructor
    · rw [smul_eq_mul, smul_eq_mul]
      field_simp
      ring
    · rw [smul_eq_mul, smul_eq_mul]
      field_simp
      ring

/-- A point strictly between two others on a vertical line lies in their
open segment. -/
theorem mem_openSegment_vert {a b c y : ℚ} (h1 : a < y) (h2 : y < b) :
    ((c, y) : ℚ × ℚ) ∈ openSegment ℚ ((c, a) : ℚ × ℚ) (c, b) := by
  have hba : b - a ≠ 0 := ne_of_gt (by linarith)
  refine ⟨(b - y) / (b - a), (y - a) / (b - a),
    div_pos (by linarith) (by linarith), div_pos (by linarith) (by linarith),
    ?_, ?_⟩
  · field_simp
  · rw [Prod.smul_mk, Prod.smul_mk, Prod.mk_add_mk, Prod.mk.injEq]
    constructor
    · rw [smul_eq_mul, smul_eq_mul]
      field_simp
      ring
    · rw [smul_eq_mul, smul_eq_mul]
      field_simp
      ring

/-- An extreme point of the hull of `S` cannot lie strictly between two
points of `S` at its own latitude. -/
theorem not_extreme_between_horiz {S : Set (ℚ × ℚ)} {p : ℚ × ℚ} {a b : ℚ}
    (hp : p ∈ Set.extremePoints ℚ (convexHull ℚ S))
    (hA : (a, p.2) ∈ S) (hB : (b, p.2) ∈ S) (ha : a < p.1) (hb : p.1 < b) :
    False := by
  have hseg := mem_openSegment_horiz ha hb (c := p.2)
  rw [Prod.mk.eta] at hseg
  obtain ⟨hA', _⟩ := hp.2 (subset_convexHull ℚ S hA) (subset_convexHull ℚ S hB) hseg
  exact absurd (congrArg Prod.fst hA') (ne_of_lt ha)

/-- An extreme point of the hull of `S` cannot lie strictly between two
points of `S` at its own longitude. -/
theorem not_extreme_between_vert {S : Set (ℚ × ℚ)} {p : ℚ × ℚ} {a b : ℚ}
    (hp : p ∈ Set.extremePoints ℚ (convexHull ℚ S))
    (hA : (p.1, a) ∈ S) (hB : (p.1, b) ∈ S) (ha : a < p.2) (hb : p.2 < b) :
    False := by
  have hseg := mem_openSegment_vert ha hb (c := p.1)
  rw [Prod.mk.eta] at hseg
  obtain ⟨hA', _⟩ := hp.2 (subset_convexHull ℚ S hA) (subset_convexHull ℚ S hB) hseg
  exact absurd (congrArg Prod.snd hA') (ne_of_lt ha)

/-- The hull's vertex set, rewritten through an identification of its point
set. -/
theorem hullVertices_eq_of_pts_set (h : MultiPointHull) (S : Set (ℚ × ℚ))
    (hset : (setOf fun q => q ∈ h.pts) = S) :
    hullVertices h = Set.extremePoints ℚ (convexHull ℚ S) := by
  unfold hullVertices hullSet
  rw [hset]

/-- C6: on an entirely valid slice over a rectangular lon/lat grid, the
returned polygon's vertices are corner points of the grid's bounding extent:
each vertex is a grid point whose longitude is extremal among the grid's
longitudes and whose latitude is extremal among the grid's latitudes. -/
theorem get_valid_data_frame_full_grid_corners {n1 n2 ny nx : ℕ}
    (d : DataArray n1 n2 ny nx) (li : Fin n1 × Fin n2)
    (lons : Fin nx → ℚ) (lats : Fin ny → ℚ)
    (hlon : ∀ y x, d.lon y x = lons x) (hlat : ∀ y x, d.lat y x = lats y)
    (hval : ∀ y x, (d.values li.1 li.2 y x).isSome = true)
    (h3 : 3 ≤ ny * nx) :
    ∃ hull, get_valid_data_frame d li = some hull
      ∧ ∀ p ∈ hullVertices hull,
          ((∀ x, p.1 ≤ lons x) ∨ (∀ x, lons x ≤ p.1))
          ∧ ((∀ y, p.2 ≤ lats y) ∨ (∀ y, lats y ≤ p.2))
          ∧ (∃ x, p.1 = lons x) ∧ (∃ y, p.2 = lats y) := by
  have hcount : validCount d li = ny * nx := by
    unfold validCount
    rw [Finset.filter_true_of_mem (fun p _ => hval p.1 p.2)]
    simp [Finset.card_univ]
  have hset : (setOf fun q => q ∈
      (validPositions fun y x => (d.values li.1 li.2 y x).isSome).map
        fun pp => (d.lon pp.1 pp.2, d.lat pp.1 pp.2))
      = setOf fun q : ℚ × ℚ => ∃ x y, q = (lons x, lats y) := by
    ext q
    rw [Set.mem_setOf_eq, mem_gathered_iff]
    unfold validPointSet
    rw [Set.mem_setOf_eq, Set.mem_setOf_eq]
    constructor
    · rintro ⟨y, x, _, rfl⟩
      exact ⟨x, y, by rw [hlon, hlat]⟩
    · rintro ⟨x, y, rfl⟩
      exact ⟨y, x, hval y x, by rw [hlon, hlat]⟩
  refine ⟨_, get_valid_data_frame_some d li (by omega), ?_⟩
  intro p hp
  rw [hullVertices_eq_of_pts_set _ _ hset] at hp
  have hpS : p ∈ setOf fun q : ℚ × ℚ => ∃ x y, q = (lons x, lats y) :=
    extremePoints_convexHull_subset hp
  obtain ⟨x0, y0, hp0⟩ := hpS
  have hp1 : p.1 = lons x0 := by rw [hp0]
  have hp2 : p.2 = lats y0 := by rw [hp0]
  refine ⟨?_, ?_, ⟨x0, hp1⟩, ⟨y0, hp2⟩⟩
  · by_contra hcon
    push_neg at hcon
    obtain ⟨⟨xa, hxa⟩, ⟨xb, hxb⟩⟩ := hcon
    exact not_extreme_between_horiz hp ⟨xa, y0, by rw [hp2]⟩
      ⟨xb, y0, by rw [hp2]⟩ hxa hxb
  · by_contra hcon
    push_neg at hcon
    obtain ⟨⟨ya, hya⟩, ⟨yb, hyb⟩⟩ := hcon
    exact not_extreme_between_vert hp ⟨x0, ya, by rw [hp1]⟩
      ⟨x0, yb, by rw [hp1]⟩ hya hyb

/-- Witness for C6 on the fully valid 2x2 unit grid. -/
theorem get_valid_data_frame_full_grid_corners_witness :
    ∃ hull, get_valid_data_frame dGrid (0, 0) = some hull
      ∧ ∀ p ∈ hullVertices hull,
          ((∀ x : Fin 2, p.1 ≤ (x.val : ℚ)) ∨ (∀ x : Fin 2, (x.val : ℚ) ≤ p.1))
          ∧ ((∀ y : Fin 2, p.2 ≤ (y.val : ℚ)) ∨ (∀ y : Fin 2, (y.val : ℚ) ≤ p.2))
          ∧ (∃ x : Fin 2, p.1 = (x.val : ℚ)) ∧ (∃ y : Fin 2, p.2 = (y.val : ℚ)) :=
  get_valid_data_frame_full_grid_corners dGrid (0, 0)
    (fun x => (x.val : ℚ)) (fun y => (y.val : ℚ))
    (fun _ _ => rfl) (fun _ _ => rfl) (fun _ _ => rfl) (by norm_num)
